import Mathlib

set_option maxRecDepth 100000

/-!
Verification of the console-monitor frame codec, frame extractor, link-proxy
liveness logic and proxy supervisor, embedded shallowly from the Python
sources (`console_monitor/frame.py`, `console_monitor/dce.py`,
`temp/serial_proxy.py`, `temp/util.py`, `temp/constants.py`).
Bytes are modelled as `Nat` values; byte strings as `List Nat`.
-/

namespace ConsoleMonitor

/-! ## Frame codec constants (frame.py, SpecialChar and module constants) -/

/-- `SpecialChar.SOF = 0x05`, start of frame. -/
def SOF : Nat := 0x05

/-- `SpecialChar.EOF = 0x00`, end of frame. -/
def EOF_BYTE : Nat := 0x00

/-- `SpecialChar.DLE = 0x10`, data link escape. -/
def DLE : Nat := 0x10

/-- `ESCAPABLE_CHARS = frozenset({SOF, EOF, DLE})` as a membership test. -/
def isEscapable (b : Nat) : Bool := b == SOF || b == EOF_BYTE || b == DLE

/-- `PROTOCOL_VERSION = 0x01`. -/
def PROTOCOL_VERSION : Nat := 0x01

/-- `MAX_FRAME_BUFFER_SIZE = 64`. -/
def MAX_FRAME_BUFFER_SIZE : Nat := 64

/-- `SOF_SEQUENCE = bytes([SOF] * 3)`. -/
def SOF_SEQUENCE : List Nat := [SOF, SOF, SOF]

/-- `EOF_SEQUENCE = bytes([EOF] * 3)`. -/
def EOF_SEQUENCE : List Nat := [EOF_BYTE, EOF_BYTE, EOF_BYTE]

/-! ## CRC-16/MODBUS (frame.py, crc16_modbus) -/

/-- One iteration of the inner loop of `crc16_modbus`:
`if crc & 1: crc = (crc >> 1) ^ 0xA001 else: crc >>= 1`. -/
def crc16_step (crc : Nat) : Nat :=
  if crc &&& 0x0001 == 1 then (crc >>> 1) ^^^ 0xA001 else crc >>> 1

/-- The inner `for _ in range(8)` loop of `crc16_modbus`. -/
def crc16_bits : Nat → Nat → Nat
  | 0, crc => crc
  | n + 1, crc => crc16_bits n (crc16_step crc)

/-- `crc16_modbus(data)`: fold `crc ^= byte` followed by 8 shift rounds over
the data, initial value `0xFFFF`. -/
def crc16_modbus (data : List Nat) : Nat :=
  data.foldl (fun crc byte => crc16_bits 8 (crc ^^^ byte)) 0xFFFF

/-! ## Escaping (frame.py, escape_data / unescape_data) -/

/-- `escape_data`: each byte in `ESCAPABLE_CHARS` is preceded by `DLE`. -/
def escape_data : List Nat → List Nat
  | [] => []
  | byte :: rest => (if isEscapable byte then [DLE, byte] else [byte]) ++ escape_data rest

/-- `unescape_data`: a `DLE` followed by an escapable byte collapses to that
byte; any other byte (including a stray `DLE`) is kept literally. -/
def unescape_data : List Nat → List Nat
  | [] => []
  | [b] => [b]
  | b :: c :: rest =>
    if b == DLE && isEscapable c then c :: unescape_data rest
    else b :: unescape_data (c :: rest)

/-! ## Frame build / parse (frame.py, class Frame) -/

/-- The `Frame` dataclass: `version`, `seq`, `flag`, `frame_type`, `payload`. -/
structure Frame where
  version : Nat := PROTOCOL_VERSION
  seq : Nat := 0
  flag : Nat := 0x00
  frame_type : Nat := 0x01
  payload : List Nat := []
deriving DecidableEq, Repr

/-- The unescaped content of `Frame.build` before the CRC:
`bytes([version, seq & 0xFF, flag, frame_type, len(payload)]) + payload`. -/
def Frame.contentBytes (f : Frame) : List Nat :=
  f.version :: (f.seq &&& 0xFF) :: f.flag :: f.frame_type :: f.payload.length :: f.payload

/-- `content + bytes([crc >> 8, crc & 0xFF])` in `Frame.build`. -/
def Frame.contentWithCrc (f : Frame) : List Nat :=
  f.contentBytes ++ [crc16_modbus f.contentBytes >>> 8, crc16_modbus f.contentBytes &&& 0xFF]

/-- `Frame.build`: `SOF_SEQUENCE + escape_data(content_with_crc) + EOF_SEQUENCE`. -/
def Frame.build (f : Frame) : List Nat :=
  SOF_SEQUENCE ++ escape_data f.contentWithCrc ++ EOF_SEQUENCE

/-- `Frame.parse(buffer)`: unescape, check minimum length 7, split off the two
big-endian CRC bytes, verify the CRC over the content, then extract the
fields; the payload is `content[5:5+length]` (clamped by list slicing). -/
def Frame.parse (buffer : List Nat) : Option Frame :=
  let unescaped := unescape_data buffer
  if unescaped.length < 7 then none
  else
    let content := unescaped.take (unescaped.length - 2)
    let crc_bytes := unescaped.drop (unescaped.length - 2)
    let expected_crc := crc16_modbus content
    let received_crc := (crc_bytes.getD 0 0) <<< 8 ||| crc_bytes.getD 1 0
    if expected_crc ≠ received_crc then none
    else if content.length < 5 then none
    else
      some { version := content.getD 0 0
             seq := content.getD 1 0
             flag := content.getD 2 0
             frame_type := content.getD 3 0
             payload := (content.drop 5).take (content.getD 4 0) }

/-- The bytes of a built frame between the SOF run and the EOF run. -/
def stripSofEof (l : List Nat) : List Nat :=
  (l.drop 3).take (l.length - 6)

/-! ## Frame extractor (frame.py, class FrameFilter)

The callbacks `on_frame` / `on_user_data` are modelled as emitted events, so
each operation returns the new filter state and the list of callbacks it
issued, in order. -/

/-- A callback issued by the filter: `on_frame(f)` or `on_user_data(data)`. -/
inductive FEvent where
  | frame (f : Frame)
  | user (data : List Nat)
deriving DecidableEq, Repr

/-- The mutable state of a `FrameFilter`: `_buffer`, `_escape_next`, `_in_frame`. -/
structure FilterState where
  buffer : List Nat
  escape_next : Bool
  in_frame : Bool
deriving DecidableEq, Repr

/-- `FrameFilter.__init__`: empty buffer, both flags false. -/
def filterInit : FilterState := ⟨[], false, false⟩

/-- `_flush_as_user_data`: emit the buffer as user data when non-empty,
clear the buffer and the escape flag. -/
def flushAsUserData (s : FilterState) : FilterState × List FEvent :=
  ({ s with buffer := [], escape_next := false },
   if s.buffer.isEmpty then [] else [.user s.buffer])

/-- `_discard_buffer`: clear the buffer and the escape flag, emit nothing. -/
def discardBuffer (s : FilterState) : FilterState :=
  { s with buffer := [], escape_next := false }

/-- `_flush_buffer` (overflow handler): flush as user data when out of frame,
discard when in frame; in both cases leave the in-frame state. -/
def flushBuffer (s : FilterState) : FilterState × List FEvent :=
  if s.in_frame = false then
    let r := flushAsUserData s
    ({ r.1 with in_frame := false }, r.2)
  else
    ({ discardBuffer s with in_frame := false }, [])

/-- `_try_parse_frame`: on an empty buffer only clear the escape flag;
otherwise parse the buffer, clear it, and emit the frame on success. -/
def tryParseFrame (s : FilterState) : FilterState × List FEvent :=
  if s.buffer.isEmpty then ({ s with escape_next := false }, [])
  else
    let s' : FilterState := { s with buffer := [], escape_next := false }
    match Frame.parse s.buffer with
    | some f => (s', [.frame f])
    | none => (s', [])

/-- The body of the `for byte in data` loop of `FrameFilter.process`. -/
def stepByte (s : FilterState) (byte : Nat) : FilterState × List FEvent :=
  if s.escape_next then
    let s' : FilterState := { s with buffer := s.buffer ++ [byte], escape_next := false }
    if MAX_FRAME_BUFFER_SIZE ≤ s'.buffer.length then flushBuffer s' else (s', [])
  else if byte == DLE then
    ({ s with buffer := s.buffer ++ [byte], escape_next := true }, [])
  else if byte == SOF then
    if s.in_frame = false then
      let r := flushAsUserData s
      ({ r.1 with in_frame := true }, r.2)
    else
      ({ discardBuffer s with in_frame := true }, [])
  else if byte == EOF_BYTE then
    let r := tryParseFrame s
    ({ r.1 with in_frame := false }, r.2)
  else
    let s' : FilterState := { s with buffer := s.buffer ++ [byte] }
    if MAX_FRAME_BUFFER_SIZE ≤ s'.buffer.length then flushBuffer s' else (s', [])

/-- `FrameFilter.process(data)`: run `stepByte` over the bytes in order,
collecting the emitted callbacks. -/
def process : FilterState → List Nat → FilterState × List FEvent
  | s, [] => (s, [])
  | s, b :: rest =>
    let r := stepByte s b
    let r2 := process r.1 rest
    (r2.1, r.2 ++ r2.2)

/-- `FrameFilter.on_timeout`: flush as user data when out of frame, discard
when in frame; clear the in-frame state. -/
def on_timeout (s : FilterState) : FilterState × List FEvent :=
  if s.in_frame = false then
    let r := flushAsUserData s
    ({ r.1 with in_frame := false }, r.2)
  else
    ({ discardBuffer s with in_frame := false }, [])

/-- Concatenation of the payloads of all `on_user_data` callbacks, in order. -/
def userConcat (evs : List FEvent) : List Nat :=
  evs.foldr (fun e acc => match e with | .user d => d ++ acc | .frame _ => acc) []

/-- The frames of all `on_frame` callbacks, in order. -/
def frameEvents (evs : List FEvent) : List Frame :=
  evs.foldr (fun e acc => match e with | .frame f => f :: acc | .user _ => acc) []

/-- Filter states reachable from the initial state by processing bytes and
timeouts, observed at per-byte granularity. -/
inductive FilterReach : FilterState → Prop where
  | init : FilterReach filterInit
  | step (s : FilterState) (byte : Nat) : FilterReach s → FilterReach (stepByte s byte).1
  | timeout (s : FilterState) : FilterReach s → FilterReach (on_timeout s).1

/-! ## Link-proxy heartbeat liveness (temp/serial_proxy.py)

A discrete-event model of the state touched by `_on_frame_received`,
`_on_serial_read` and `_on_heartbeat_timeout_triggered`: the recorded
`_current_oper_state`, the time of the last valid heartbeat, the
`_last_data_activity` clock, and the pending heartbeat timer deadline.
Time is in whole seconds on the monotonic clock; the event guard makes the
timer callback run exactly at its deadline and keeps events in time order. -/

/-- `HEARTBEAT_TIMEOUT = 15` seconds (temp/constants.py). -/
def HEARTBEAT_TIMEOUT : Nat := 15

/-- The value of `_current_oper_state`: `None`, `"up"` or `"down"`. -/
inductive OperState where
  | unset
  | up
  | down
deriving DecidableEq, Repr

/-- The liveness-relevant state of one `SerialProxy`. -/
structure LiveState where
  oper_state : OperState
  last_heartbeat : Option Nat
  last_data_activity : Nat
  heartbeat_deadline : Option Nat
  now : Nat
deriving DecidableEq, Repr

/-- State right after `SerialProxy.start` at time `t0`: no recorded state,
`_last_data_activity = 0.0`, heartbeat timer armed for `t0 + 15`. -/
def liveStart (t0 : Nat) : LiveState :=
  { oper_state := .unset, last_heartbeat := none, last_data_activity := 0,
    heartbeat_deadline := some (t0 + HEARTBEAT_TIMEOUT), now := t0 }

/-- Events: serial bytes arrive at time `t` (`heartbeat` records whether a
valid heartbeat frame was among them), the heartbeat timer fires at its
deadline, or time passes with no activity. -/
inductive LiveEv where
  | data (t : Nat) (heartbeat : Bool)
  | timer (t : Nat)
  | tick (t : Nat)
deriving DecidableEq, Repr

/-- Guard: events happen in time order and no event at time `t` may jump
past a pending timer deadline; a timer event fires exactly at its deadline. -/
def liveEvOk (s : LiveState) : LiveEv → Bool
  | .data t _ =>
    s.now ≤ t && (match s.heartbeat_deadline with | some d => t ≤ d | none => true)
  | .tick t =>
    s.now ≤ t && (match s.heartbeat_deadline with | some d => t ≤ d | none => true)
  | .timer t => s.now ≤ t && s.heartbeat_deadline == some t

/-- Effect of an event. Serial data updates `_last_data_activity`
(`_on_serial_read`); a heartbeat frame additionally re-arms the timer and
records `"up"` (`_on_frame_received`). The timer callback re-arms when
`now - _last_data_activity < HEARTBEAT_TIMEOUT` and otherwise records
`"down"` (`_on_heartbeat_timeout_triggered`). -/
def liveEvApply (s : LiveState) : LiveEv → LiveState
  | .data t heartbeat =>
    let s1 := { s with now := t, last_data_activity := t }
    if heartbeat then
      { s1 with heartbeat_deadline := some (t + HEARTBEAT_TIMEOUT),
                last_heartbeat := some t, oper_state := .up }
    else s1
  | .tick t => { s with now := t }
  | .timer t =>
    let s1 := { s with now := t, heartbeat_deadline := none }
    if t - s1.last_data_activity < HEARTBEAT_TIMEOUT then
      { s1 with heartbeat_deadline := some (t + HEARTBEAT_TIMEOUT) }
    else
      { s1 with oper_state := .down }

/-- Liveness states reachable from a fresh proxy started at time `t0`. -/
inductive LiveReach (t0 : Nat) : LiveState → Prop where
  | init : LiveReach t0 (liveStart t0)
  | step (s : LiveState) (e : LiveEv) :
      LiveReach t0 s → liveEvOk s e = true → LiveReach t0 (liveEvApply s e)

/-! ## Supervisor reconcile (console_monitor/dce.py, ProxyManager.sync)

The store is abstracted to the two reads `sync` performs: the feature flag
(`DceDbHelper.check_console_feature_enabled`, whose `hget` may raise) and
the port configurations (`get_all_configs`, whose failure propagates out of
`sync`).  A proxy is its baud plus whether it is running; `startOk` says
whether `SerialProxy.start` succeeds for a given link and baud.  The model
assumes `self.loop` is set (the early return otherwise is not modelled). -/

/-- `SerialProxy` as the supervisor sees it: its baud and whether it runs. -/
structure ProxyRec where
  baud : Nat
  running : Bool
deriving DecidableEq, Repr

/-- Result of one reconcile pass: the new `proxies` map, the link ids whose
proxy had `stop()` called during the pass, and whether the pass raised. -/
structure SyncOutcome where
  proxies : List (String × ProxyRec)
  stopped : List String
  raised : Bool
deriving DecidableEq, Repr

/-- `DceDbHelper.check_console_feature_enabled`: `True` only when the read
succeeds and returns `"yes"`; any exception is caught and yields `False`. -/
def check_console_feature_enabled (flagRead : Except Unit (Option String)) : Bool :=
  match flagRead with
  | .ok enabled => enabled == some "yes"
  | .error _ => false

/-- The `redis_ids & current_ids` update loop of `sync`, per existing entry:
when the configured baud differs, the old proxy is stopped and a new one is
started; the map entry is replaced only when the new start succeeds,
otherwise the (now stopped) old proxy object stays in the map. -/
def updateChanged (startOk : String → Nat → Bool) (configs : List (String × Nat))
    (p : String × ProxyRec) : String × ProxyRec :=
  match configs.find? (fun c => c.1 == p.1) with
  | none => p
  | some c =>
    if p.2.baud ≠ c.2 then
      if startOk c.1 c.2 then (c.1, { baud := c.2, running := true })
      else (p.1, { p.2 with running := false })
    else p

/-- Whether the update loop calls `stop()` on an existing entry. -/
def changedStopped (configs : List (String × Nat)) (p : String × ProxyRec) : Bool :=
  match configs.find? (fun c => c.1 == p.1) with
  | some c => p.2.baud ≠ c.2
  | none => false

/-- `ProxyManager.sync`: disabled (or unreadable) flag stops and clears
everything; otherwise read the configurations (a failure there raises out of
the pass before any proxy is touched), then remove stale proxies, start new
ones (added only when start succeeds), and restart baud-changed ones. -/
def sync (flagRead : Except Unit (Option String))
    (configsRead : Except Unit (List (String × Nat)))
    (startOk : String → Nat → Bool)
    (proxies : List (String × ProxyRec)) : SyncOutcome :=
  if check_console_feature_enabled flagRead = false then
    { proxies := [], stopped := proxies.map (fun p => p.1), raised := false }
  else
    match configsRead with
    | .error _ => { proxies := proxies, stopped := [], raised := true }
    | .ok configs =>
      let redisIds := configs.map (fun c => c.1)
      let currentIds := proxies.map (fun p => p.1)
      let removed := proxies.filter (fun p => !(redisIds.contains p.1))
      let kept := proxies.filter (fun p => redisIds.contains p.1)
      let fresh := configs.filter (fun c => !(currentIds.contains c.1))
      let started := (fresh.filter (fun c => startOk c.1 c.2)).map
        (fun c => (c.1, ProxyRec.mk c.2 true))
      { proxies := kept.map (updateChanged startOk configs) ++ started,
        stopped := removed.map (fun p => p.1)
          ++ ((kept.filter (changedStopped configs)).map (fun p => p.1)),
        raised := false }

/-! ## Serial configuration (temp/util.py, configure_serial; temp/constants.py) -/

/-- `BAUD_MAP`: the supported baud rates and their `termios` speed codes
(`B1200` .. `B115200`, Linux values). -/
def BAUD_MAP : List (Nat × Nat) :=
  [(1200, 0o11), (2400, 0o13), (4800, 0o14), (9600, 0o15),
   (19200, 0o16), (38400, 0o17), (57600, 0o10001), (115200, 0o10002)]

/-- The speed `configure_serial` programs into the device:
`BAUD_MAP.get(baud, termios.B9600)` — an unsupported baud silently falls
back to `termios.B9600` (0o15) instead of raising. -/
def configure_serial_speed (baud : Nat) : Nat :=
  match BAUD_MAP.find? (fun p => p.1 == baud) with
  | some p => p.2
  | none => 0o15

/-- `SerialProxy.start` restricted to the baud-handling path: with every OS
call succeeding, start returns `True` (no step raises on an unsupported
baud) and the serial device ends up configured at `configure_serial_speed`.
The pair is (return value of `start`, configured speed). -/
def serial_proxy_start (baud : Nat) : Bool × Nat :=
  (true, configure_serial_speed baud)

/-! ## Codec lemmas -/

/-- A byte that is not `DLE` is copied literally by `unescape_data`. -/
theorem unescape_cons_of_ne_dle {b : Nat} (hb : b ≠ DLE) (l : List Nat) :
    unescape_data (b :: l) = b :: unescape_data l := by
  cases l with
  | nil => rfl
  | cons c rest => simp [unescape_data, hb]

/-- `DLE` followed by an escapable byte collapses to that byte. -/
theorem unescape_dle_escapable {c : Nat} (hc : isEscapable c = true) (l : List Nat) :
    unescape_data (DLE :: c :: l) = c :: unescape_data l := by
  simp [unescape_data, hc]

/-- Escaping then unescaping is the identity (spec §8, escape idempotence). -/
theorem unescape_escape (x : List Nat) : unescape_data (escape_data x) = x := by
  induction x with
  | nil => rfl
  | cons b rest ih =>
    by_cases hb : isEscapable b = true
    · rw [escape_data, if_pos hb, List.cons_append, List.cons_append, List.nil_append,
        unescape_dle_escapable hb, ih]
    · have hbd : b ≠ DLE := by
        intro h
        rw [h] at hb
        exact hb (by decide)
      rw [escape_data, if_neg hb, List.cons_append, List.nil_append,
        unescape_cons_of_ne_dle hbd, ih]

/-- Splitting a CRC into `crc >> 8` and `crc & 0xFF` and recombining them as
`(hi << 8) | lo` recovers the CRC. -/
theorem crc_bytes_recombine (n : Nat) : (n >>> 8) <<< 8 ||| (n &&& 0xFF) = n := by
  have h1 : n &&& 0xFF = n % 2 ^ 8 := by
    have h := Nat.and_pow_two_sub_one_eq_mod n 8
    norm_num at h
    exact h
  have h2 : (n >>> 8) <<< 8 = 2 ^ 8 * (n / 2 ^ 8) := by
    rw [Nat.shiftRight_eq_div_pow, Nat.shiftLeft_eq, Nat.mul_comm]
  rw [h1, h2, ← Nat.mul_add_lt_is_or (Nat.mod_lt _ (by norm_num)) (n / 2 ^ 8),
    Nat.div_add_mod]

/-- `Frame.parse` applied to the escaped form of any content of length ≥ 5
followed by its correct CRC bytes succeeds and extracts the fields
positionally. -/
theorem parse_escape_crc (content : List Nat) (h5 : 5 ≤ content.length) :
    Frame.parse (escape_data
        (content ++ [crc16_modbus content >>> 8, crc16_modbus content &&& 0xFF])) =
      some { version := content.getD 0 0, seq := content.getD 1 0,
             flag := content.getD 2 0, frame_type := content.getD 3 0,
             payload := (content.drop 5).take (content.getD 4 0) } := by
  have hu := unescape_escape
    (content ++ [crc16_modbus content >>> 8, crc16_modbus content &&& 0xFF])
  have htake : content.length =
      (content ++ [crc16_modbus content >>> 8, crc16_modbus content &&& 0xFF]).length - 2 := by
    simp
  simp only [Frame.parse, hu]
  rw [List.take_left' htake, List.drop_left' htake]
  have hlen : ¬ (content ++ [crc16_modbus content >>> 8,
      crc16_modbus content &&& 0xFF]).length < 7 := by
    simp only [List.length_append, List.length_cons, List.length_nil]
    omega
  rw [if_neg hlen]
  simp only [List.getD_cons_zero, List.getD_cons_succ, crc_bytes_recombine]
  rw [if_neg (by simp), if_neg (by omega)]

/-- The bytes of `Frame.build` between the SOF run and the EOF run are
exactly the escaped content-plus-CRC block. -/
theorem stripSofEof_build (f : Frame) :
    stripSofEof f.build = escape_data f.contentWithCrc := by
  unfold stripSofEof
  rw [show f.build = [SOF, SOF, SOF] ++
      (escape_data f.contentWithCrc ++ [EOF_BYTE, EOF_BYTE, EOF_BYTE]) from rfl]
  rw [List.drop_left' (by rfl : ([SOF, SOF, SOF] : List Nat).length = 3)]
  have hlen : ([SOF, SOF, SOF] ++ (escape_data f.contentWithCrc ++
      [EOF_BYTE, EOF_BYTE, EOF_BYTE])).length - 6 =
      (escape_data f.contentWithCrc).length := by
    simp
  rw [hlen, List.take_left]

/-- The escaped content-plus-CRC block of a frame with a byte-valued
sequence number parses back to exactly that frame. -/
theorem parse_escaped_content (f : Frame) (hs : f.seq < 256) :
    Frame.parse (escape_data f.contentWithCrc) = some f := by
  obtain ⟨v, s, fl, ft, p⟩ := f
  have hseq : s &&& 0xFF = s := by
    have h := Nat.and_pow_two_sub_one_eq_mod s 8
    norm_num at h
    rw [h]
    exact Nat.mod_eq_of_lt hs
  rw [Frame.contentWithCrc, parse_escape_crc _ (by simp [Frame.contentBytes])]
  show some (⟨v, s &&& 0xFF, fl, ft, p.take p.length⟩ : Frame) = some ⟨v, s, fl, ft, p⟩
  rw [hseq, List.take_length]

/-- C1. Codec round-trip: for every frame whose fields are bytes and whose
payload is a byte string of length at most 255, parsing the escaped body of
`Frame.build` (the bytes between the SOF run and the EOF run) with
`Frame.parse` returns exactly the original frame. -/
theorem C1_frame_roundtrip (f : Frame) (hv : f.version < 256) (hs : f.seq < 256)
    (hfl : f.flag < 256) (hft : f.frame_type < 256) (hpl : f.payload.length ≤ 255)
    (hpb : ∀ b ∈ f.payload, b < 256) :
    Frame.parse (stripSofEof f.build) = some f := by
  rw [stripSofEof_build]
  exact parse_escaped_content f hs

/-- Witness for C1 at the heartbeat frame with sequence number 0. -/
theorem C1_frame_roundtrip_witness :
    Frame.parse (stripSofEof (Frame.build { seq := 0 })) = some { seq := 0 } :=
  C1_frame_roundtrip { seq := 0 } (by decide) (by decide) (by decide) (by decide)
    (by decide) (by decide)

/-- C7 counterexample: a buffer whose unescaped form has 7 bytes, passes the
CRC check, and whose content length (5) differs from 5 + length field (10),
is still accepted by `Frame.parse` (with an empty clamped payload), whereas
the claim requires `parse` to fail on it. -/
theorem C7_counterexample :
    (let c : List Nat := [1, 0, 0, 1, 5]
     let buf := escape_data (c ++ [crc16_modbus c >>> 8, crc16_modbus c &&& 0xFF])
     let u := unescape_data buf
     7 ≤ u.length ∧
     crc16_modbus (u.take (u.length - 2)) =
       ((u.drop (u.length - 2)).getD 0 0) <<< 8 ||| (u.drop (u.length - 2)).getD 1 0 ∧
     (u.take (u.length - 2)).length ≠ 5 + (u.take (u.length - 2)).getD 4 0 ∧
     Frame.parse buf =
       some { version := 1, seq := 0, flag := 0, frame_type := 1, payload := [] }) := by
  decide

/-- C7 amended: `Frame.parse` performs no length-field consistency check.
For every buffer whose unescaped form has at least 7 bytes and whose CRC
matches, parse succeeds; the length byte only clamps the payload slice. -/
theorem C7_amended_no_length_check (buffer : List Nat)
    (h7 : 7 ≤ (unescape_data buffer).length)
    (hcrc : crc16_modbus
        ((unescape_data buffer).take ((unescape_data buffer).length - 2)) =
      (((unescape_data buffer).drop ((unescape_data buffer).length - 2)).getD 0 0) <<< 8 |||
        ((unescape_data buffer).drop ((unescape_data buffer).length - 2)).getD 1 0) :
    (Frame.parse buffer).isSome = true := by
  simp only [Frame.parse]
  rw [if_neg (by omega), if_neg (fun hne => hne hcrc),
    if_neg (by rw [List.length_take]; omega)]
  rfl

/-- Witness for the amended C7 at the concrete length-mismatched buffer. -/
theorem C7_amended_no_length_check_witness :
    (Frame.parse (escape_data ([1, 0, 0, 1, 5] ++
      [crc16_modbus [1, 0, 0, 1, 5] >>> 8,
       crc16_modbus [1, 0, 0, 1, 5] &&& 0xFF]))).isSome = true :=
  C7_amended_no_length_check _ (by decide) (by decide)

/-! ## Supervisor and serial-configuration claims -/

/-- C8 counterexample: baud 300 is outside the supported set, yet the start
sequence reports success with the device configured at `termios.B9600`
(0o15); the claim requires start to fail and roll back. -/
theorem C8_counterexample :
    BAUD_MAP.find? (fun p => p.1 == 300) = none ∧
      serial_proxy_start 300 = (true, 0o15) := by
  decide

/-- C8 amended: a baud outside the supported closed set does not make the
proxy start fail: `configure_serial` silently maps it to `termios.B9600`
and `start` reports success with the device running at 9600 baud. -/
theorem C8_amended_fallback (baud : Nat)
    (h : BAUD_MAP.find? (fun p => p.1 == baud) = none) :
    configure_serial_speed baud = 0o15 ∧ (serial_proxy_start baud).1 = true := by
  refine ⟨?_, rfl⟩
  simp [configure_serial_speed, h]

/-- Witness for the amended C8 at baud 300. -/
theorem C8_amended_fallback_witness :
    configure_serial_speed 300 = 0o15 ∧ (serial_proxy_start 300).1 = true :=
  C8_amended_fallback 300 (by decide)

/-- C5 counterexample: with one running proxy and a feature-flag read that
fails, the reconcile pass stops that proxy and leaves the map empty,
whereas the claim requires every previously running proxy to survive the
pass unscathed. -/
theorem C5_counterexample :
    sync (.error ()) (.ok []) (fun _ _ => true) [("1", ⟨9600, true⟩)] =
      { proxies := [], stopped := ["1"], raised := false } := by
  decide

/-- C5 amended: a store failure while reading the port configurations
(after a successful flag read) aborts the pass before any proxy is touched,
so every proxy survives; but a store failure while reading the feature flag
itself is swallowed as "feature disabled", stopping and removing every
running proxy. -/
theorem C5_amended_outage (cfgs : Except Unit (List (String × Nat)))
    (startOk : String → Nat → Bool) (proxies : List (String × ProxyRec)) :
    sync (.ok (some "yes")) (.error ()) startOk proxies =
      { proxies := proxies, stopped := [], raised := true } ∧
    sync (.error ()) cfgs startOk proxies =
      { proxies := [], stopped := proxies.map (fun p => p.1), raised := false } := by
  constructor
  · rfl
  · rfl

/-- C9: the reconcile pass evaluated at the failing input. One proxy runs
at baud 9600, the store now lists baud 115200 for the same link, and the
restart fails; after the pass the map still holds the old proxy object,
now stopped and with baud 9600 ≠ 115200 — violating the invariant that an
entry is always a started proxy with matching baud. -/
theorem C9_restart_failure_keeps_stopped_proxy :
    (sync (.ok (some "yes")) (.ok [("1", 115200)]) (fun _ _ => false)
        [("1", ⟨9600, true⟩)]).proxies = [("1", ⟨9600, false⟩)] ∧
      ((9600 : Nat) ≠ 115200) := by
  decide

/-! ## Extractor lemmas -/

/-- Any user event emitted by `_flush_as_user_data` carries the buffer,
which is checked to be non-empty before the callback fires. -/
theorem user_flushAsUserData_ne_nil (s : FilterState) (d : List Nat)
    (h : FEvent.user d ∈ (flushAsUserData s).2) : d ≠ [] := by
  simp only [flushAsUserData] at h
  by_cases hb : s.buffer.isEmpty
  · rw [if_pos hb] at h
    cases h
  · rw [if_neg hb] at h
    rw [List.mem_singleton] at h
    cases h
    simpa using hb

/-- Any user event emitted by `_flush_buffer` is non-empty. -/
theorem user_flushBuffer_ne_nil (s : FilterState) (d : List Nat)
    (h : FEvent.user d ∈ (flushBuffer s).2) : d ≠ [] := by
  unfold flushBuffer at h
  by_cases hin : s.in_frame = false
  · rw [if_pos hin] at h
    exact user_flushAsUserData_ne_nil s d h
  · rw [if_neg hin] at h
    cases h

/-- `_try_parse_frame` emits no user events at all. -/
theorem user_tryParseFrame_ne_nil (s : FilterState) (d : List Nat)
    (h : FEvent.user d ∈ (tryParseFrame s).2) : d ≠ [] := by
  unfold tryParseFrame at h
  by_cases hb : s.buffer.isEmpty
  · rw [if_pos hb] at h
    cases h
  · rw [if_neg hb] at h
    rcases hp : Frame.parse s.buffer with _ | f <;> rw [hp] at h <;> simp at h

/-- Any user event emitted by one byte step is non-empty. -/
theorem user_stepByte_ne_nil (s : FilterState) (b : Nat) (d : List Nat)
    (h : FEvent.user d ∈ (stepByte s b).2) : d ≠ [] := by
  unfold stepByte at h
  by_cases he : s.escape_next
  · rw [if_pos he] at h
    by_cases hov : MAX_FRAME_BUFFER_SIZE ≤ (s.buffer ++ [b]).length
    · simp only [if_pos hov] at h
      exact user_flushBuffer_ne_nil _ d h
    · simp only [if_neg hov] at h
      cases h
  · rw [if_neg he] at h
    by_cases hdle : b == DLE
    · rw [if_pos hdle] at h
      cases h
    · rw [if_neg hdle] at h
      by_cases hsof : b == SOF
      · rw [if_pos hsof] at h
        by_cases hin : s.in_frame = false
        · rw [if_pos hin] at h
          exact user_flushAsUserData_ne_nil s d h
        · rw [if_neg hin] at h
          cases h
      · rw [if_neg hsof] at h
        by_cases heof : b == EOF_BYTE
        · rw [if_pos heof] at h
          exact user_tryParseFrame_ne_nil s d h
        · rw [if_neg heof] at h
          by_cases hov : MAX_FRAME_BUFFER_SIZE ≤ (s.buffer ++ [b]).length
          · simp only [if_pos hov] at h
            exact user_flushBuffer_ne_nil _ d h
          · simp only [if_neg hov] at h
            cases h

/-- Any user event emitted while processing a byte list is non-empty. -/
theorem user_process_ne_nil (data : List Nat) :
    ∀ (s : FilterState) (d : List Nat),
      FEvent.user d ∈ (process s data).2 → d ≠ [] := by
  induction data with
  | nil =>
    intro s d h
    cases h
  | cons b rest ih =>
    intro s d h
    simp only [process] at h
    rcases List.mem_append.mp h with h1 | h2
    · exact user_stepByte_ne_nil s b d h1
    · exact ih _ d h2

/-- Any user event emitted by `on_timeout` is non-empty. -/
theorem user_on_timeout_ne_nil (s : FilterState) (d : List Nat)
    (h : FEvent.user d ∈ (on_timeout s).2) : d ≠ [] := by
  unfold on_timeout at h
  by_cases hin : s.in_frame = false
  · rw [if_pos hin] at h
    exact user_flushAsUserData_ne_nil s d h
  · rw [if_neg hin] at h
    cases h

/-- C10. The extractor never invokes its user-data callback with an empty
byte string: every `on_user_data` event emitted while processing any input
from any state, followed by a timeout flush, carries at least one byte. -/
theorem C10_no_empty_user_callback (s : FilterState) (data d : List Nat)
    (h : FEvent.user d ∈
      (process s data).2 ++ (on_timeout (process s data).1).2) :
    d ≠ [] := by
  rcases List.mem_append.mp h with h1 | h2
  · exact user_process_ne_nil data s d h1
  · exact user_on_timeout_ne_nil _ d h2

/-- Witness for C10: the single byte 65 is flushed by the timeout as the
non-empty user chunk `[65]`. -/
theorem C10_no_empty_user_callback_witness : ([65] : List Nat) ≠ [] :=
  C10_no_empty_user_callback filterInit [65] [65] (by decide)

/-- Inductive buffer bound: out of an escape the buffer stays below the cap,
and right after an unchecked `DLE` append it can touch the cap exactly. -/
def BufInv (s : FilterState) : Prop :=
  (s.escape_next = false → s.buffer.length ≤ 63) ∧
  (s.escape_next = true → s.buffer.length ≤ 64)

theorem bufInv_init : BufInv filterInit := by
  constructor <;> intro <;> simp [filterInit]

theorem bufInv_flushAsUserData (s : FilterState) : BufInv (flushAsUserData s).1 := by
  constructor <;> intro <;> simp [flushAsUserData]

theorem bufInv_flushBuffer (s : FilterState) : BufInv (flushBuffer s).1 := by
  unfold flushBuffer
  by_cases hin : s.in_frame = false
  · rw [if_pos hin]
    exact bufInv_flushAsUserData s
  · rw [if_neg hin]
    constructor <;> intro <;> simp [discardBuffer]

theorem bufInv_tryParseFrame (s : FilterState) (hb : s.buffer.isEmpty = false) :
    BufInv (tryParseFrame s).1 := by
  unfold tryParseFrame
  rw [if_neg (by simp [hb])]
  rcases Frame.parse s.buffer with _ | f <;> constructor <;> intro <;> simp

theorem bufInv_stepByte (s : FilterState) (b : Nat) (h : BufInv s) :
    BufInv (stepByte s b).1 := by
  obtain ⟨h0, h1⟩ := h
  unfold stepByte
  by_cases he : s.escape_next
  · rw [if_pos he]
    by_cases hov : MAX_FRAME_BUFFER_SIZE ≤ (s.buffer ++ [b]).length
    · simp only [if_pos hov]
      exact bufInv_flushBuffer _
    · simp only [if_neg hov]
      simp only [MAX_FRAME_BUFFER_SIZE, List.length_append, List.length_cons,
        List.length_nil] at hov
      constructor <;> intro <;> simp <;> omega
  · rw [if_neg he]
    have hl := h0 (by revert he; cases s.escape_next <;> simp)
    by_cases hdle : b == DLE
    · rw [if_pos hdle]
      constructor <;> intro hcontra <;> simp at hcontra ⊢ <;> omega
    · rw [if_neg hdle]
      by_cases hsof : b == SOF
      · rw [if_pos hsof]
        by_cases hin : s.in_frame = false
        · rw [if_pos hin]
          have := bufInv_flushAsUserData s
          constructor <;> intro <;> simp [flushAsUserData] at * <;> omega
        · rw [if_neg hin]
          constructor <;> intro <;> simp [discardBuffer]
      · rw [if_neg hsof]
        by_cases heof : b == EOF_BYTE
        · rw [if_pos heof]
          by_cases hbe : s.buffer.isEmpty
          · unfold tryParseFrame
            rw [if_pos hbe]
            constructor <;> intro <;> simp at hbe <;> simp [hbe]
          · have := bufInv_tryParseFrame s (by revert hbe; cases s.buffer.isEmpty <;> simp)
            obtain ⟨g0, g1⟩ := this
            constructor <;> intro hg
            · exact g0 hg
            · exact g1 hg
        · rw [if_neg heof]
          by_cases hov : MAX_FRAME_BUFFER_SIZE ≤ (s.buffer ++ [b]).length
          · simp only [if_pos hov]
            exact bufInv_flushBuffer _
          · simp only [if_neg hov]
            simp only [MAX_FRAME_BUFFER_SIZE, List.length_append, List.length_cons,
              List.length_nil] at hov
            constructor <;> intro <;> simp <;> omega

theorem bufInv_on_timeout (s : FilterState) (h : BufInv s) :
    BufInv (on_timeout s).1 := by
  unfold on_timeout
  by_cases hin : s.in_frame = false
  · rw [if_pos hin]
    exact bufInv_flushAsUserData s
  · rw [if_neg hin]
    constructor <;> intro <;> simp [discardBuffer]

theorem bufInv_reach (s : FilterState) (h : FilterReach s) : BufInv s := by
  induction h with
  | init => exact bufInv_init
  | step s b _ ih => exact bufInv_stepByte s b ih
  | timeout s _ ih => exact bufInv_on_timeout s ih

/-- C3. Bounded buffering: in every state the extractor can reach from its
initial state — at per-byte granularity, over arbitrary inputs and
timeouts — the internal buffer holds at most `MAX_FRAME_BUFFER_SIZE = 64`
bytes. -/
theorem C3_bounded_buffer (s : FilterState) (h : FilterReach s) :
    s.buffer.length ≤ MAX_FRAME_BUFFER_SIZE := by
  obtain ⟨h0, h1⟩ := bufInv_reach s h
  show s.buffer.length ≤ 64
  cases he : s.escape_next
  · exact Nat.le_trans (h0 he) (by omega)
  · exact h1 he

/-- Witness for C3 at the initial extractor state. -/
theorem C3_bounded_buffer_witness : filterInit.buffer.length ≤ MAX_FRAME_BUFFER_SIZE :=
  C3_bounded_buffer filterInit FilterReach.init

theorem userConcat_append (a b : List FEvent) :
    userConcat (a ++ b) = userConcat a ++ userConcat b := by
  induction a with
  | nil => rfl
  | cons e rest ih => cases e <;> simp [userConcat] at ih ⊢ <;> simp [ih]

theorem frameEvents_append (a b : List FEvent) :
    frameEvents (a ++ b) = frameEvents a ++ frameEvents b := by
  induction a with
  | nil => rfl
  | cons e rest ih => cases e <;> simp [frameEvents] at ih ⊢ <;> simp [ih]

/-- Out of frame, a flush of a non-empty buffer emits exactly that buffer. -/
theorem flushBuffer_out (s : FilterState) (hin : s.in_frame = false)
    (hb : s.buffer ≠ []) :
    flushBuffer s = (⟨[], false, false⟩, [.user s.buffer]) := by
  unfold flushBuffer flushAsUserData
  rw [if_pos hin, if_neg (by simpa using hb)]

/-- One clean byte (neither SOF nor EOF) processed out of frame: the state
stays out of frame and the byte lands at the end of the pending bytes
(emitted user chunks followed by the new buffer). -/
theorem stepByte_clean (s : FilterState) (b : Nat) (hin : s.in_frame = false)
    (hb5 : b ≠ SOF) (hb0 : b ≠ EOF_BYTE) :
    (stepByte s b).1.in_frame = false ∧
    userConcat (stepByte s b).2 ++ (stepByte s b).1.buffer = s.buffer ++ [b] ∧
    frameEvents (stepByte s b).2 = [] := by
  unfold stepByte
  by_cases he : s.escape_next
  · rw [if_pos he]
    by_cases hov : MAX_FRAME_BUFFER_SIZE ≤ (s.buffer ++ [b]).length
    · simp only [if_pos hov]
      rw [flushBuffer_out _ (by simpa using hin) (by simp)]
      exact ⟨rfl, by simp [userConcat], rfl⟩
    · simp only [if_neg hov]
      exact ⟨hin, by simp [userConcat], rfl⟩
  · rw [if_neg he]
    by_cases hdle : b == DLE
    · rw [if_pos hdle]
      exact ⟨hin, by simp [userConcat], rfl⟩
    · rw [if_neg hdle, if_neg (by simp [hb5]), if_neg (by simp [hb0])]
      by_cases hov : MAX_FRAME_BUFFER_SIZE ≤ (s.buffer ++ [b]).length
      · simp only [if_pos hov]
        rw [flushBuffer_out _ (by simpa using hin) (by simp)]
        exact ⟨rfl, by simp [userConcat], rfl⟩
      · simp only [if_neg hov]
        exact ⟨hin, by simp [userConcat], rfl⟩

/-- Processing a byte list free of SOF and EOF while out of frame keeps the
extractor out of frame, emits no frames, and preserves every byte: the
emitted user chunks followed by the final buffer are the old buffer plus
the input. -/
theorem process_clean (data : List Nat) :
    ∀ s : FilterState, s.in_frame = false →
      (∀ b ∈ data, b ≠ SOF ∧ b ≠ EOF_BYTE) →
      (process s data).1.in_frame = false ∧
      userConcat (process s data).2 ++ (process s data).1.buffer = s.buffer ++ data ∧
      frameEvents (process s data).2 = [] := by
  induction data with
  | nil =>
    intro s hin _
    exact ⟨hin, by simp [process, userConcat], rfl⟩
  | cons b rest ih =>
    intro s hin hcl
    obtain ⟨hb5, hb0⟩ := hcl b (List.mem_cons_self b rest)
    obtain ⟨sin, seq, sfr⟩ := stepByte_clean s b hin hb5 hb0
    obtain ⟨rin, req, rfr⟩ := ih (stepByte s b).1 sin
      (fun x hx => hcl x (List.mem_cons_of_mem b hx))
    simp only [process]
    refine ⟨rin, ?_, ?_⟩
    · rw [userConcat_append, List.append_assoc, req, ← List.append_assoc, seq,
        List.append_assoc]
      simp
    · rw [frameEvents_append, sfr, rfr]
      rfl

/-- A timeout out of frame surfaces exactly the pending buffer. -/
theorem userConcat_on_timeout_out (s : FilterState) (hin : s.in_frame = false) :
    userConcat (on_timeout s).2 = s.buffer := by
  unfold on_timeout flushAsUserData
  rw [if_pos hin]
  by_cases hb : s.buffer.isEmpty
  · rw [if_pos hb]
    simp only [List.isEmpty_eq_true] at hb
    simp [hb, userConcat]
  · rw [if_neg hb]
    simp [userConcat]

/-- C2 counterexample: the input `[0x00]` contains no SOF byte at all (so
certainly no SOF run), yet after processing and a final timeout the user
callbacks concatenate to nothing: the lone EOF byte is consumed by the
frame-terminator branch and never surfaced. -/
theorem C2_counterexample :
    (SOF ∉ ([0] : List Nat)) ∧
    userConcat ((process filterInit [0]).2 ++
      (on_timeout (process filterInit [0]).1).2) ≠ [0] := by
  decide

/-- C2 amended: no loss out-of-frame holds for inputs containing neither an
unescaped frame delimiter: for every input without any SOF (0x05) and
without any EOF (0x00) byte, the user callbacks issued during processing
plus the final timeout flush concatenate to exactly the input. An EOF byte
breaks the property (its preceding buffer is parsed or discarded and the
byte itself is consumed), as does a bare SOF byte. -/
theorem C2_amended_no_loss (data : List Nat) (h5 : SOF ∉ data) (h0 : EOF_BYTE ∉ data) :
    userConcat ((process filterInit data).2 ++
      (on_timeout (process filterInit data).1).2) = data := by
  have hcl : ∀ b ∈ data, b ≠ SOF ∧ b ≠ EOF_BYTE := by
    intro b hb
    constructor
    · intro e
      exact h5 (e ▸ hb)
    · intro e
      exact h0 (e ▸ hb)
  obtain ⟨hin, heq, -⟩ := process_clean data filterInit rfl hcl
  rw [userConcat_append, userConcat_on_timeout_out _ hin, heq]
  rfl

/-- Witness for the amended C2 on the single clean byte 65. -/
theorem C2_amended_no_loss_witness :
    userConcat ((process filterInit [65]).2 ++
      (on_timeout (process filterInit [65]).1).2) = [65] :=
  C2_amended_no_loss [65] (by decide) (by decide)

/-! ## Liveness claims -/

/-- A run of the link proxy: start at 0, heartbeat at 0, interactive bytes
at 10, the heartbeat timer re-arming at 15 thanks to the data-activity
grace, and time reaching 16. -/
def c4BadTrace : LiveState :=
  liveEvApply (liveEvApply (liveEvApply (liveEvApply (liveStart 0)
    (.data 0 true)) (.data 10 false)) (.timer 15)) (.tick 16)

/-- C4 counterexample: in the reachable state after a heartbeat at time 0,
user bytes at time 10, a timer expiry at 15 (re-armed by the data-activity
grace in `_on_heartbeat_timeout_triggered`) and the clock at 16, the
recorded state is still "up" although the last valid heartbeat is 16 ≥ 15
seconds old — the claim requires `up` to imply a heartbeat within
`HEARTBEAT_TIMEOUT`. -/
theorem C4_counterexample :
    LiveReach 0 c4BadTrace ∧ c4BadTrace.oper_state = .up ∧
      c4BadTrace.last_heartbeat = some 0 ∧
      ¬ (c4BadTrace.now - 0 < HEARTBEAT_TIMEOUT) := by
  refine ⟨?_, by decide, by decide, by decide⟩
  exact LiveReach.step _ _ (LiveReach.step _ _ (LiveReach.step _ _
    (LiveReach.step _ _ LiveReach.init (by decide)) (by decide)) (by decide))
    (by decide)

/-- Inductive liveness invariant: clocks are monotone, and whenever the
recorded state is "up" a heartbeat exists, a timer is pending, and the
deadline is within `2 * HEARTBEAT_TIMEOUT` of the last heartbeat or data
activity. -/
def LiveInv (s : LiveState) : Prop :=
  s.last_data_activity ≤ s.now ∧
  (∀ hb, s.last_heartbeat = some hb → hb ≤ s.now) ∧
  (s.oper_state = .up →
    ∃ hb d, s.last_heartbeat = some hb ∧ s.heartbeat_deadline = some d ∧
      s.now ≤ d ∧ d < max hb s.last_data_activity + 2 * HEARTBEAT_TIMEOUT)

theorem liveInv_start (t0 : Nat) : LiveInv (liveStart t0) := by
  refine ⟨Nat.zero_le _, ?_, ?_⟩
  · intro hb h
    cases h
  · intro h
    cases h

theorem liveInv_step (s : LiveState) (e : LiveEv) (h : LiveInv s)
    (hok : liveEvOk s e = true) : LiveInv (liveEvApply s e) := by
  obtain ⟨os, lh, ld, dl, tnow⟩ := s
  obtain ⟨hda, hhb, hup⟩ := h
  dsimp only at hda hhb hup
  cases e with
  | data t heartbeat =>
    cases heartbeat
    · rcases dl with _ | d
      · simp only [liveEvOk, Bool.and_eq_true, decide_eq_true_eq] at hok
        simp only [liveEvApply, LiveInv, if_neg Bool.false_ne_true]
        refine ⟨Nat.le_refl t, ?_, ?_⟩
        · intro hb hh
          exact Nat.le_trans (hhb hb hh) hok.1
        · intro hu
          obtain ⟨hb, d, -, hdl, -⟩ := hup hu
          cases hdl
      · simp only [liveEvOk, Bool.and_eq_true, decide_eq_true_eq] at hok
        simp only [liveEvApply, LiveInv, if_neg Bool.false_ne_true]
        refine ⟨Nat.le_refl t, ?_, ?_⟩
        · intro hb hh
          exact Nat.le_trans (hhb hb hh) hok.1
        · intro hu
          obtain ⟨hb, d', hlh, hdl, hnd, hbd⟩ := hup hu
          injection hdl with hdd
          subst hdd
          refine ⟨hb, d, hlh, rfl, hok.2, ?_⟩
          have h1 : tnow ≤ t := hok.1
          omega
    · simp only [liveEvOk, Bool.and_eq_true, decide_eq_true_eq] at hok
      have happ : liveEvApply ⟨os, lh, ld, dl, tnow⟩ (.data t true) =
          ⟨.up, some t, t, some (t + HEARTBEAT_TIMEOUT), t⟩ := rfl
      rw [happ]
      refine ⟨Nat.le_refl t, ?_, ?_⟩
      · intro hb hh
        injection hh with hh2
        subst hh2
        exact Nat.le_refl t
      · intro _
        refine ⟨t, t + HEARTBEAT_TIMEOUT, rfl, rfl, Nat.le_add_right t _, ?_⟩
        simp only [HEARTBEAT_TIMEOUT]
        omega
  | tick t =>
    rcases dl with _ | d
    · simp only [liveEvOk, Bool.and_eq_true, decide_eq_true_eq] at hok
      simp only [liveEvApply, LiveInv]
      refine ⟨Nat.le_trans hda hok.1, ?_, ?_⟩
      · intro hb hh
        exact Nat.le_trans (hhb hb hh) hok.1
      · intro hu
        obtain ⟨hb, d, -, hdl, -⟩ := hup hu
        cases hdl
    · simp only [liveEvOk, Bool.and_eq_true, decide_eq_true_eq] at hok
      simp only [liveEvApply, LiveInv]
      refine ⟨Nat.le_trans hda hok.1, ?_, ?_⟩
      · intro hb hh
        exact Nat.le_trans (hhb hb hh) hok.1
      · intro hu
        obtain ⟨hb, d', hlh, hdl, hnd, hbd⟩ := hup hu
        injection hdl with hdd
        subst hdd
        exact ⟨hb, d, hlh, rfl, hok.2, hbd⟩
  | timer t =>
    simp only [liveEvOk, Bool.and_eq_true, decide_eq_true_eq, beq_iff_eq] at hok
    obtain ⟨hnt, hdl⟩ := hok
    simp only [liveEvApply, LiveInv]
    by_cases hgrace : t - ld < HEARTBEAT_TIMEOUT
    · rw [if_pos hgrace]
      refine ⟨Nat.le_trans hda hnt, ?_, ?_⟩
      · intro hb hh
        exact Nat.le_trans (hhb hb hh) hnt
      · intro hu
        obtain ⟨hb, d', hlh, -, -, -⟩ := hup hu
        refine ⟨hb, t + HEARTBEAT_TIMEOUT, hlh, rfl, Nat.le_add_right t _, ?_⟩
        simp only [HEARTBEAT_TIMEOUT] at hgrace ⊢
        omega
    · rw [if_neg hgrace]
      refine ⟨Nat.le_trans hda hnt, ?_, ?_⟩
      · intro hb hh
        exact Nat.le_trans (hhb hb hh) hnt
      · intro hu
        cases hu

theorem liveInv_reach (t0 : Nat) (s : LiveState) (h : LiveReach t0 s) :
    LiveInv s := by
  induction h with
  | init => exact liveInv_start t0
  | step s e _ hok ih => exact liveInv_step s e ih hok

/-- C4 amended: in every reachable state of the link proxy, recorded state
"up" implies a heartbeat was received at some time `hb`, and heartbeat or
serial byte activity occurred within the last `2 * HEARTBEAT_TIMEOUT`
(30 s). The strict 15-second bound of the claim fails because
`_on_heartbeat_timeout_triggered` re-arms the timer instead of reporting
"down" whenever any serial bytes arrived within the last
`HEARTBEAT_TIMEOUT`. -/
theorem C4_amended_liveness (t0 : Nat) (s : LiveState) (h : LiveReach t0 s)
    (hup : s.oper_state = .up) :
    ∃ hb, s.last_heartbeat = some hb ∧
      s.now - max hb s.last_data_activity < 2 * HEARTBEAT_TIMEOUT := by
  obtain ⟨-, -, hinv⟩ := liveInv_reach t0 s h
  obtain ⟨hb, d, hlh, -, hnd, hbd⟩ := hinv hup
  refine ⟨hb, hlh, ?_⟩
  simp only [HEARTBEAT_TIMEOUT] at hbd ⊢
  omega

/-- Witness for the amended C4 right after a heartbeat at time 0. -/
theorem C4_amended_liveness_witness :
    ∃ hb, (liveEvApply (liveStart 0) (.data 0 true)).last_heartbeat = some hb ∧
      (liveEvApply (liveStart 0) (.data 0 true)).now -
        max hb (liveEvApply (liveStart 0) (.data 0 true)).last_data_activity <
        2 * HEARTBEAT_TIMEOUT :=
  C4_amended_liveness 0 _ (LiveReach.step _ _ LiveReach.init (by decide)) (by decide)

/-! ## Frame-isolation lemmas -/

theorem process_append (a b : List Nat) : ∀ s : FilterState,
    process s (a ++ b) =
      ((process (process s a).1 b).1, (process s a).2 ++ (process (process s a).1 b).2) := by
  induction a with
  | nil => intro s; simp [process]
  | cons c rest ih =>
    intro s
    simp only [List.cons_append, process, List.append_eq]
    rw [ih]
    simp [List.append_assoc]

/-- The escape flag after feeding a byte list: toggled on by an unescaped
`DLE`, consumed by the following byte. -/
def escAfter : Bool → List Nat → Bool
  | e, [] => e
  | e, b :: rest => escAfter (!e && b == DLE) rest

/-- One clean out-of-frame byte updates the escape flag like `escAfter`. -/
theorem stepByte_clean_esc (s : FilterState) (b : Nat) (hin : s.in_frame = false)
    (hb5 : b ≠ SOF) (hb0 : b ≠ EOF_BYTE) :
    (stepByte s b).1.escape_next = (!s.escape_next && b == DLE) := by
  unfold stepByte
  by_cases he : s.escape_next
  · rw [if_pos he, he]
    by_cases hov : MAX_FRAME_BUFFER_SIZE ≤ (s.buffer ++ [b]).length
    · simp only [if_pos hov]
      rw [flushBuffer_out _ (by simpa using hin) (by simp)]
      simp
    · simp only [if_neg hov, Bool.not_true, Bool.false_and]
  · rw [if_neg he, eq_false_of_ne_true he]
    by_cases hdle : b == DLE
    · rw [if_pos hdle, hdle]
      simp
    · rw [if_neg hdle, if_neg (by simp [hb5]), if_neg (by simp [hb0])]
      by_cases hov : MAX_FRAME_BUFFER_SIZE ≤ (s.buffer ++ [b]).length
      · simp only [if_pos hov]
        rw [flushBuffer_out _ (by simpa using hin) (by simp)]
        simp [Bool.eq_false_iff.mpr hdle]
      · simp only [if_neg hov]
        simp [eq_false_of_ne_true he, Bool.eq_false_iff.mpr hdle]

/-- Processing clean bytes out of frame drives the escape flag to
`escAfter`. -/
theorem process_clean_esc (data : List Nat) :
    ∀ s : FilterState, s.in_frame = false →
      (∀ b ∈ data, b ≠ SOF ∧ b ≠ EOF_BYTE) →
      (process s data).1.escape_next = escAfter s.escape_next data := by
  induction data with
  | nil => intro s _ _; rfl
  | cons b rest ih =>
    intro s hin hcl
    obtain ⟨hb5, hb0⟩ := hcl b (List.mem_cons_self b rest)
    obtain ⟨sin, -, -⟩ := stepByte_clean s b hin hb5 hb0
    simp only [process, escAfter]
    rw [ih _ sin (fun x hx => hcl x (List.mem_cons_of_mem b hx)),
      stepByte_clean_esc s b hin hb5 hb0]

theorem escAfter_append_singleton (l : List Nat) (b : Nat) :
    ∀ e : Bool, escAfter e (l ++ [b]) = (!escAfter e l && b == DLE) := by
  induction l with
  | nil => intro e; rfl
  | cons c rest ih =>
    intro e
    simp only [List.cons_append, escAfter]
    exact ih _

/-- The escape flag left by a clean list is its trailing-DLE-run parity. -/
theorem escAfter_false_parity (l : List Nat) :
    escAfter false l = ((l.reverse.takeWhile (fun b => b == DLE)).length % 2 == 1) := by
  induction l using List.reverseRecOn with
  | nil => rfl
  | append_singleton rest b ih =>
    rw [escAfter_append_singleton, ih, List.reverse_append]
    by_cases hb : b = DLE
    · subst hb
      have ht : List.takeWhile (fun x => x == DLE) (DLE :: rest.reverse) =
          DLE :: List.takeWhile (fun x => x == DLE) rest.reverse :=
        List.takeWhile_cons_of_pos (by decide)
      simp only [List.reverse_singleton, List.singleton_append, ht, List.length_cons]
      rcases Nat.mod_two_eq_zero_or_one
          (List.takeWhile (fun x => x == DLE) rest.reverse).length with h | h
      · have h1 : ((List.takeWhile (fun x => x == DLE) rest.reverse).length + 1) % 2 = 1 := by
          omega
        rw [h, h1]
        decide
      · have h1 : ((List.takeWhile (fun x => x == DLE) rest.reverse).length + 1) % 2 = 0 := by
          omega
        rw [h, h1]
        decide
    · have hb2 : (b == DLE) = false := by simpa using hb
      have ht : List.takeWhile (fun x => x == DLE) (b :: rest.reverse) = [] :=
        List.takeWhile_cons_of_neg (by simp [hb2])
      simp only [List.reverse_singleton, List.singleton_append, ht, List.length_nil]
      simp [hb2]

/-- Escaping a non-empty list yields a non-empty list. -/
theorem escape_data_ne_nil {x : List Nat} (h : x ≠ []) : escape_data x ≠ [] := by
  cases x with
  | nil => exact absurd rfl h
  | cons b rest =>
    rw [escape_data]
    by_cases hb : isEscapable b <;> simp [hb]

/-- The SOF run from a clean out-of-frame state: the pending buffer is
flushed by the first SOF, the other two SOFs discard the empty buffer, and
the extractor ends in-frame with an empty buffer. -/
theorem process_sof_run (s : FilterState) (hin : s.in_frame = false)
    (hesc : s.escape_next = false) :
    process s [SOF, SOF, SOF] =
      (⟨[], false, true⟩, if s.buffer.isEmpty then [] else [.user s.buffer]) := by
  obtain ⟨buf, esc, infr⟩ := s
  dsimp only at hin hesc
  subst hin hesc
  simp [process, stepByte, flushAsUserData, discardBuffer, SOF, DLE]

/-- The EOF run from an in-frame state with a non-empty clean buffer: the
first EOF parses the buffer (emitting the frame on success), the other two
see an empty buffer, and the extractor ends out of frame. -/
theorem process_eof_run (s : FilterState) (hin : s.in_frame = true)
    (hesc : s.escape_next = false) (hbuf : s.buffer ≠ []) :
    process s [EOF_BYTE, EOF_BYTE, EOF_BYTE] =
      (⟨[], false, false⟩,
        match Frame.parse s.buffer with
        | some f => [.frame f]
        | none => []) := by
  obtain ⟨buf, esc, infr⟩ := s
  dsimp only at hin hesc hbuf
  subst hin hesc
  have hne : buf.isEmpty = false := by simpa using hbuf
  rcases hp : Frame.parse buf with _ | f <;>
    simp [process, stepByte, tryParseFrame, hp, hne, SOF, DLE, EOF_BYTE]

/-- Feeding an escaped block to an in-frame extractor with enough buffer
room appends the block verbatim (the `DLE` markers included) and emits
nothing. -/
theorem process_escaped_in_frame (x : List Nat) :
    ∀ s : FilterState, s.in_frame = true → s.escape_next = false →
      s.buffer.length + (escape_data x).length ≤ 63 →
      process s (escape_data x) =
        (⟨s.buffer ++ escape_data x, false, true⟩, []) := by
  induction x with
  | nil =>
    intro s hin hesc hlen
    obtain ⟨buf, esc, infr⟩ := s
    dsimp only at hin hesc
    subst hin hesc
    simp [process, escape_data]
  | cons b rest ih =>
    intro s hin hesc hlen
    obtain ⟨buf, esc, infr⟩ := s
    dsimp only at hin hesc hlen
    subst hin hesc
    rw [escape_data] at hlen ⊢
    by_cases hb : isEscapable b
    · rw [if_pos hb] at hlen ⊢
      simp only [List.length_append, List.length_cons, List.length_nil] at hlen
      simp only [List.cons_append, List.nil_append, process]
      have h1 : stepByte ⟨buf, false, true⟩ DLE = (⟨buf ++ [DLE], true, true⟩, []) := rfl
      have h2 : stepByte ⟨buf ++ [DLE], true, true⟩ b =
          (⟨(buf ++ [DLE]) ++ [b], false, true⟩, []) := by
        unfold stepByte
        rw [if_pos rfl]
        rw [if_neg (by simp only [MAX_FRAME_BUFFER_SIZE, List.length_append,
          List.length_cons, List.length_nil]; omega)]
      rw [h1, h2]
      simp only [List.append_eq, List.nil_append]
      rw [ih ⟨(buf ++ [DLE]) ++ [b], false, true⟩ rfl rfl
        (by simp only [List.length_append, List.length_cons, List.length_nil]; omega)]
      simp [List.append_assoc]
    · rw [if_neg hb] at hlen ⊢
      simp only [List.length_append, List.length_cons, List.length_nil] at hlen
      simp only [List.cons_append, List.nil_append, process]
      have hb5 : b ≠ SOF := fun h => hb (by simp [isEscapable, h])
      have hb0 : b ≠ EOF_BYTE := fun h => hb (by simp [isEscapable, h])
      have hb16 : b ≠ DLE := fun h => hb (by simp [isEscapable, h])
      have h1 : stepByte ⟨buf, false, true⟩ b = (⟨buf ++ [b], false, true⟩, []) := by
        unfold stepByte
        rw [if_neg (by simp), if_neg (by simp [hb16]), if_neg (by simp [hb5]),
          if_neg (by simp [hb0])]
        rw [if_neg (by simp only [MAX_FRAME_BUFFER_SIZE, List.length_append,
          List.length_cons, List.length_nil]; omega)]
      rw [h1]
      simp only [List.append_eq, List.nil_append]
      rw [ih ⟨buf ++ [b], false, true⟩ rfl rfl
        (by simp only [List.length_append, List.length_cons, List.length_nil]; omega)]
      simp [List.append_assoc]

theorem userConcat_nil_eq : userConcat ([] : List FEvent) = [] := rfl

theorem userConcat_frame_singleton (f : Frame) : userConcat [FEvent.frame f] = [] := rfl

theorem userConcat_if_buffer (buf : List Nat) :
    userConcat (if buf.isEmpty then [] else [.user buf]) = buf := by
  by_cases hb : buf.isEmpty
  · rw [if_pos hb]
    simp only [List.isEmpty_eq_true] at hb
    simp [hb, userConcat]
  · rw [if_neg hb]
    simp [userConcat]

theorem frameEvents_if_buffer (buf : List Nat) :
    frameEvents (if buf.isEmpty then [] else [.user buf]) = [] := by
  by_cases hb : buf.isEmpty <;> simp [hb, frameEvents]

theorem frameEvents_on_timeout (s : FilterState) :
    frameEvents (on_timeout s).2 = [] := by
  unfold on_timeout flushAsUserData
  by_cases hin : s.in_frame = false
  · rw [if_pos hin]
    by_cases hb : s.buffer.isEmpty <;> simp [hb, frameEvents]
  · rw [if_neg hin]
    rfl

/-- C6 counterexample: a user byte stream `[DLE]` (free of SOF and EOF)
followed by a built heartbeat frame still yields exactly one `on_frame`,
but the pending escape makes the extractor swallow the first SOF byte into
the user stream: the user bytes concatenate to `[DLE, SOF]`, not `[DLE]`
as the claim requires. -/
theorem C6_counterexample :
    (SOF ∉ ([DLE] : List Nat)) ∧ (EOF_BYTE ∉ ([DLE] : List Nat)) ∧
    frameEvents ((process filterInit ([DLE] ++ Frame.build { seq := 0 } ++ [])).2 ++
      (on_timeout (process filterInit ([DLE] ++ Frame.build { seq := 0 } ++ [])).1).2) =
      [{ seq := 0 }] ∧
    userConcat ((process filterInit ([DLE] ++ Frame.build { seq := 0 } ++ [])).2 ++
      (on_timeout (process filterInit ([DLE] ++ Frame.build { seq := 0 } ++ [])).1).2) =
      [DLE, SOF] ∧
    ([DLE, SOF] : List Nat) ≠ [DLE] ++ [] := by
  decide

/-- C6 amended: frame isolation holds under two extra conditions the code
imposes: the escaped frame body must fit the extractor buffer (length at
most 63 = `MAX_FRAME_BUFFER_SIZE` - 1), and the user bytes before the frame
must not end in an odd-length run of `DLE` bytes (a pending escape would
swallow the first SOF into the user stream). Under these conditions, an
input `user_prefix ++ Build(f) ++ user_suffix` with no SOF or EOF byte in
the surrounding user bytes produces exactly one `on_frame` event carrying
`f`, and user callbacks concatenating to exactly the surrounding bytes. -/
theorem C6_amended_frame_isolation (f : Frame) (pre suf : List Nat)
    (hs : f.seq < 256)
    (hsize : (escape_data f.contentWithCrc).length ≤ 63)
    (hpre5 : SOF ∉ pre) (hpre0 : EOF_BYTE ∉ pre)
    (hsuf5 : SOF ∉ suf) (hsuf0 : EOF_BYTE ∉ suf)
    (hdle : (pre.reverse.takeWhile (fun b => b == DLE)).length % 2 = 0) :
    frameEvents ((process filterInit (pre ++ f.build ++ suf)).2 ++
      (on_timeout (process filterInit (pre ++ f.build ++ suf)).1).2) = [f] ∧
    userConcat ((process filterInit (pre ++ f.build ++ suf)).2 ++
      (on_timeout (process filterInit (pre ++ f.build ++ suf)).1).2) = pre ++ suf := by
  have hclp : ∀ b ∈ pre, b ≠ SOF ∧ b ≠ EOF_BYTE := fun b hb =>
    ⟨fun e => hpre5 (e ▸ hb), fun e => hpre0 (e ▸ hb)⟩
  have hcls : ∀ b ∈ suf, b ≠ SOF ∧ b ≠ EOF_BYTE := fun b hb =>
    ⟨fun e => hsuf5 (e ▸ hb), fun e => hsuf0 (e ▸ hb)⟩
  obtain ⟨h1in, h1eq, h1fr⟩ := process_clean pre filterInit rfl hclp
  have h1esc : (process filterInit pre).1.escape_next = false := by
    rw [process_clean_esc pre filterInit rfl hclp]
    show escAfter false pre = false
    rw [escAfter_false_parity, hdle]
    rfl
  obtain ⟨h5in, h5eq, h5fr⟩ :=
    process_clean suf (⟨[], false, false⟩ : FilterState) rfl hcls
  have hbody := process_escaped_in_frame f.contentWithCrc
    (⟨[], false, true⟩ : FilterState) rfl rfl (by simpa using hsize)
  have hcwcne : f.contentWithCrc ≠ [] := by
    simp [Frame.contentWithCrc, Frame.contentBytes]
  have heof := process_eof_run
    (⟨escape_data f.contentWithCrc, false, true⟩ : FilterState) rfl rfl
    (escape_data_ne_nil hcwcne)
  rw [parse_escaped_content f hs] at heof
  have hsplit : pre ++ f.build ++ suf =
      pre ++ ([SOF, SOF, SOF] ++ (escape_data f.contentWithCrc ++
        ([EOF_BYTE, EOF_BYTE, EOF_BYTE] ++ suf))) := by
    simp [Frame.build, SOF_SEQUENCE, EOF_SEQUENCE]
  dsimp only at hbody heof
  rw [List.nil_append] at hbody
  rw [hsplit, process_append, process_append,
    process_sof_run _ h1in h1esc]
  dsimp only
  rw [process_append, hbody]
  dsimp only
  rw [process_append, heof]
  dsimp only
  constructor
  · rw [frameEvents_append, frameEvents_append, frameEvents_append,
      frameEvents_append, frameEvents_append, h1fr, h5fr,
      frameEvents_if_buffer, frameEvents_on_timeout]
    rfl
  · rw [userConcat_append, userConcat_append, userConcat_append,
      userConcat_append, userConcat_append, userConcat_if_buffer,
      userConcat_on_timeout_out _ h5in]
    have h1eq' : userConcat (process filterInit pre).2 ++
        (process filterInit pre).1.buffer = pre := by simpa using h1eq
    have h5eq' : userConcat (process (⟨[], false, false⟩ : FilterState) suf).2 ++
        (process (⟨[], false, false⟩ : FilterState) suf).1.buffer = suf := by
      simpa using h5eq
    conv_rhs => rw [← h1eq', ← h5eq']
    simp only [userConcat_nil_eq, userConcat_frame_singleton, List.nil_append,
      List.append_assoc]

/-- Witness for the amended C6: byte 65, a heartbeat frame, byte 66. -/
theorem C6_amended_frame_isolation_witness :
    frameEvents ((process filterInit ([65] ++ Frame.build { seq := 0 } ++ [66])).2 ++
      (on_timeout (process filterInit ([65] ++ Frame.build { seq := 0 } ++ [66])).1).2) =
      [{ seq := 0 }] ∧
    userConcat ((process filterInit ([65] ++ Frame.build { seq := 0 } ++ [66])).2 ++
      (on_timeout (process filterInit ([65] ++ Frame.build { seq := 0 } ++ [66])).1).2) =
      [65] ++ [66] :=
  C6_amended_frame_isolation { seq := 0 } [65] [66] (by decide) (by decide)
    (by decide) (by decide) (by decide) (by decide) (by decide)

end ConsoleMonitor
